import Mathlib

/-! # git-team: alias resolution, error folding and event mapping

A shallow embedding of the parts of `git-team` that carry behaviour:

* `src/command/adapter/alias_resolver.go`: `resolveAlias`, `resolveAliases`;
* `src/main.go`: `foldErrors`, `exitIfErr`;
* `src/add/interfaceadapter/event/event_mapper.go`: `MapEventToEffects`;
* the add executor exercised by `src/add/executor_test.go`.

Go strings are Lean strings (the text is taken to be valid UTF-8, so a Go string is its
sequence of code points).  A Go `error` is `Option String`: `none` is `nil`, `some m` is a
non-nil error whose `Error()` text is `m`.  `fmt.Sprintf` and `fmt.Errorf` with `%s` verbs and
string or error arguments are concatenations.  A Go function value that may touch the outside
world (the git configuration) is a function that threads a world `σ` explicitly.
-/

set_option autoImplicit false

namespace GitTeam

/-! ## Data model -/

/-- A Go `error` value: `none` is `nil`, `some m` a non-nil error with message `m`. -/
abbrev GoError := Option String

/-- A Go function value of type `func(string) (string, error)`, run in a world `σ` that it may
read and change (for the resolver: the git configuration behind `gitconfig.Get`). -/
abbrev Lookup (σ : Type) := String → σ → (String × GoError) × σ

/-- A lookup without effect on the world: the same answer for the same argument. -/
def pureLookup {σ : Type} (f : String → String × GoError) : Lookup σ :=
  fun arg s => (f arg, s)

/-- A lookup answering like `f` whose world is the list of the arguments it has been called
with so far, oldest first. -/
def recorded (f : String → String × GoError) : Lookup (List String) :=
  fun arg calls => (f arg, calls ++ [arg])

/-! ## `src/command/adapter/alias_resolver.go` -/

/-- The `for _, alias := range aliases` loop of `resolveAliases`, with the two accumulators
`resolvedAliases` and `resolveErrors` and the world as loop state. -/
def resolveAliasesLoop {σ : Type} (resolveAlias : Lookup σ) :
    List String → List String → List GoError → σ → (List String × List GoError) × σ
  | [], resolvedAliases, resolveErrors, s => ((resolvedAliases, resolveErrors), s)
  | aliasName :: rest, resolvedAliases, resolveErrors, s =>
    match resolveAlias aliasName s with
    | ((resolvedCoauthor, err), s') =>
      if err ≠ none then
        resolveAliasesLoop resolveAlias rest resolvedAliases (resolveErrors ++ [err]) s'
      else
        resolveAliasesLoop resolveAlias rest (resolvedAliases ++ [resolvedCoauthor])
          resolveErrors s'

/-- The function `resolveAliases(resolveAlias)(aliases)`: both accumulators start empty. -/
def resolveAliases {σ : Type} (resolveAlias : Lookup σ) (aliases : List String) (s : σ) :
    (List String × List GoError) × σ :=
  resolveAliasesLoop resolveAlias aliases [] [] s

/-- The function `resolveAlias(gitconfigGet)(alias)`: one call of the getter with the key
`fmt.Sprintf("team.alias.%s", alias)`; an error or an empty value is a failure. -/
def resolveAlias {σ : Type} (gitconfigGet : Lookup σ) : Lookup σ :=
  fun aliasName s =>
    match gitconfigGet ("team.alias." ++ aliasName) s with
    | ((coauthor, err), s') =>
      if err ≠ none ∨ coauthor = "" then
        (("", some ("Failed to resolve alias team.alias." ++ aliasName)), s')
      else
        ((coauthor, none), s')

/-! ## `src/main.go` -/

/-- Go `strings.TrimRight(s, cutset)`: `s` without its trailing run of code points that occur
in `cutset`. -/
def trimRight (s cutset : String) : String :=
  ⟨s.data.rdropWhile (fun c => cutset.data.contains c)⟩

/-- The loop of `foldErrors`: each error writes `err.Error()` and then `"; "` to the buffer.
Calling `Error()` on a `nil` error is a runtime panic, `none` here. -/
def foldErrorsLoop : List GoError → String → Option String
  | [], buffer => some buffer
  | none :: _, _ => none
  | some msg :: rest, buffer => foldErrorsLoop rest ((buffer ++ msg) ++ "; ")

/-- The function `foldErrors(validationErrors)`: `some m` is the returned error (never `nil`,
it comes from `errors.New`) with message `m`; `none` is a runtime panic. -/
def foldErrors (validationErrors : List GoError) : Option String :=
  (foldErrorsLoop validationErrors "").map (fun buffer => trimRight buffer "; ")

/-- How far the process has come. -/
inductive Status where
  /-- Still running. -/
  | running
  /-- Ended by `os.Exit(code)`. -/
  | exited (code : Int)
  /-- Ended by a runtime panic. -/
  | panicked
  deriving DecidableEq, Repr

/-- The exit status of a process that has ended: the code given to `os.Exit`, and `2` for a
runtime panic, the status with which the Go runtime ends a program that panics. A running
process has none. -/
def Status.exitCode : Status → Option Int
  | Status.running => none
  | Status.exited code => some code
  | Status.panicked => some 2

/-- The part of the process that `exitIfErr` acts on: what has been written to standard error
and whether the process still runs. -/
structure Process where
  /-- Everything written to `os.Stderr` so far. -/
  stderr : String
  /-- Running, exited or panicked. -/
  status : Status
  deriving DecidableEq, Repr

/-- The function `exitIfErr(validationErrs...)`. The test is
`len(validationErrs) > 0 && validationErrs[0] != nil`; behind it the folded message is written
as `fmt.Sprintf("error: %s\n", ...)` and the process exits with `-1`. When `foldErrors`
panics nothing has been written yet by `exitIfErr`; the dump of the Go runtime is not part of
the model. -/
def exitIfErr (validationErrs : List GoError) (p : Process) : Process :=
  if 0 < validationErrs.length ∧ validationErrs.head? ≠ some none then
    match foldErrors validationErrs with
    | some msg => Process.mk (p.stderr ++ (("error: " ++ msg) ++ "\n")) (Status.exited (-1))
    | none => Process.mk p.stderr Status.panicked
  else
    p

/-! ## The add executor (`src/add`) -/

/-- Modelled from the spec: the dependency record of the add executor (declared in
`src/add/executor.go`, which is missing; `src/add/executor_test.go` builds it as
`AddEffect{AddGitAlias: add}`). The injected effect takes the alias and the coauthor, may
change the world (the configuration it writes to) and returns an error or `nil`. -/
structure AddEffect (σ : Type) where
  /-- The underlying configuration write. -/
  AddGitAlias : String → String → σ → GoError × σ

/-- Modelled from the spec: the command of the add executor (declared in the missing
`src/add/executor.go`; the test builds it as `AddCommand{Alias: alias, Coauthor: coAuthor}`). -/
structure AddCommand where
  /-- The alias to be added. -/
  Alias : String
  /-- The co-author it stands for. -/
  Coauthor : String

/-- Modelled from the spec: the add executor built by `ExecutorFactory` (its source file
`src/add/executor.go` is missing; only its test and its caller `runAdd`, which injects
`git.AddAlias` as `AddGitAlias`, are present). The spec, for the Add policy: "validates `alias`
and `coauthor` are both non-empty, then delegates to Alias Store `add`; surfaces
`AliasOperationFailed` otherwise", and for the delegate: "fails with `AliasOperationFailed` if
the underlying config write fails; otherwise persists and succeeds with no return value".
A command with an empty alias or coauthor fails without the write being called; the spec names
that failure only by its kind, which is the text of the error here. A failure of the write is
returned as the error of the write. -/
def ExecutorFactory {σ : Type} (deps : AddEffect σ) (cmd : AddCommand) (s : σ) : GoError × σ :=
  if cmd.Alias = "" ∨ cmd.Coauthor = "" then
    (some "AliasOperationFailed", s)
  else
    match deps.AddGitAlias cmd.Alias cmd.Coauthor s with
    | (some err, s') => (some err, s')
    | (none, s') => (none, s')

/-- An injected `AddGitAlias` that always succeeds and whose world is the list of the
(alias, coauthor) pairs it has been called with. -/
def recordingAdd : AddEffect (List (String × String)) :=
  AddEffect.mk (fun aliasName coauthor calls => (none, calls ++ [(aliasName, coauthor)]))

/-! ## `src/add/interfaceadapter/event/event_mapper.go` -/

/-- Modelled from the spec: the events the mapper switches on (the packages `src/add` and
`src/core/events` that declare them are missing). `other` stands for a value of any further
type implementing `events.Event`, named by its type. -/
inductive Event where
  /-- The event `add.AssignmentSucceeded{Alias, Coauthor}`. -/
  | AssignmentSucceeded (Alias Coauthor : String)
  /-- The event `add.AssignmentFailed{Reason}`. -/
  | AssignmentFailed (Reason : GoError)
  /-- The event `add.AssignmentAborted{}`. -/
  | AssignmentAborted
  /-- Any other event. -/
  | other (typeName : String)
  deriving DecidableEq, Repr

/-- Modelled from the spec: the effects the mapper builds (the package `src/effects` that
declares them is missing): print a message, print an error, exit with success, exit with
failure. -/
inductive Effect where
  /-- The effect `effects.NewPrintMessage(message)`. -/
  | NewPrintMessage (message : String)
  /-- The effect `effects.NewPrintErr(err)`. -/
  | NewPrintErr (err : GoError)
  /-- The effect `effects.NewExitOk()`. -/
  | NewExitOk
  /-- The effect `effects.NewExitErr()`. -/
  | NewExitErr
  deriving DecidableEq, Repr

/-- Whether an effect ends the process. -/
def Effect.isExit : Effect → Bool
  | Effect.NewExitOk => true
  | Effect.NewExitErr => true
  | _ => false

/-- The function `MapEventToEffects(event)`. The two colouring functions of the library
`github.com/fatih/color` that it calls, `color.GreenString` and `color.YellowString`, are
parameters. -/
def MapEventToEffects (GreenString YellowString : String → String) (event : Event) :
    List Effect :=
  match event with
  | Event.AssignmentSucceeded Alias Coauthor =>
    [Effect.NewPrintMessage
        (GreenString (((("Alias '" ++ Alias) ++ "' -> '") ++ Coauthor) ++ "' has been added.")),
      Effect.NewExitOk]
  | Event.AssignmentFailed Reason =>
    [Effect.NewPrintErr Reason, Effect.NewExitErr]
  | Event.AssignmentAborted =>
    [Effect.NewPrintMessage (YellowString "Nothing changed."), Effect.NewExitOk]
  | Event.other _ => []

/-- What a colouring function of `github.com/fatih/color` returns while colour output is on:
the text between the escape sequence that selects the colour and the one that resets it
(`32` is green, `33` is yellow). -/
def ansiColor (code : String) (text : String) : String :=
  (("\x1b[" ++ code) ++ "m") ++ text ++ "\x1b[0m"

/-! ## Vocabulary of the statements -/

/-- The tokens of `tokens` that `f` resolves (its error is `nil`), as the values `f` returns
for them, in token order. -/
def resolvedOf (f : String → String × GoError) (tokens : List String) : List String :=
  (tokens.filter (fun t => decide ((f t).2 = none))).map (fun t => (f t).1)

/-- The errors `f` returns for the tokens of `tokens` it does not resolve (its error is not
`nil`), in token order. -/
def errorsOf (f : String → String × GoError) (tokens : List String) : List GoError :=
  (tokens.filter (fun t => decide ((f t).2 ≠ none))).map (fun t => (f t).2)

/-- The getter has no mapping for the alias: for the key `"team.alias." ++ aliasName` it
returns an error or the empty string. -/
def unmapped (gitconfigGet : String → String × GoError) (aliasName : String) : Bool :=
  decide ((gitconfigGet ("team.alias." ++ aliasName)).2 ≠ none ∨
    (gitconfigGet ("team.alias." ++ aliasName)).1 = "")

/-- What `resolveAlias(gitconfigGet)(alias)` returns when the getter is the effect-free
function `gitconfigGet`. -/
def resolveAliasAnswer (gitconfigGet : String → String × GoError) (aliasName : String) :
    String × GoError :=
  (resolveAlias (pureLookup gitconfigGet) aliasName ()).1

/-- A configuration without any entry: every `get` fails. -/
def emptyGet : String → String × GoError :=
  fun _ => ("", some "exit status 1")

/-- A configuration with the entries `team.alias.mr = Mr. Noujz <noujz@mr.se>` and
`team.alias.void =` (an empty value); every other `get` fails. -/
def sampleGet : String → String × GoError :=
  fun key =>
    if key = "team.alias.mr" then ("Mr. Noujz <noujz@mr.se>", none)
    else if key = "team.alias.void" then ("", none)
    else ("", some "exit status 1")

/-! ## Helper lemmas on the resolver -/

theorem resolveAliasesLoop_append {σ : Type} (f : Lookup σ) (xs ys : List String) :
    ∀ (acc : List String) (errs : List GoError) (s : σ),
      resolveAliasesLoop f (xs ++ ys) acc errs s =
        resolveAliasesLoop f ys (resolveAliasesLoop f xs acc errs s).1.1
          (resolveAliasesLoop f xs acc errs s).1.2 (resolveAliasesLoop f xs acc errs s).2 := by
  induction xs with
  | nil => intro acc errs s; rfl
  | cons x xs ih =>
    intro acc errs s
    simp only [List.cons_append, resolveAliasesLoop]
    split_ifs <;> exact ih _ _ _

theorem resolveAliasesLoop_acc {σ : Type} (f : Lookup σ) (xs : List String) :
    ∀ (acc : List String) (errs : List GoError) (s : σ),
      resolveAliasesLoop f xs acc errs s =
        ((acc ++ (resolveAliasesLoop f xs [] [] s).1.1,
          errs ++ (resolveAliasesLoop f xs [] [] s).1.2),
          (resolveAliasesLoop f xs [] [] s).2) := by
  induction xs with
  | nil => intro acc errs s; simp [resolveAliasesLoop]
  | cons x xs ih =>
    intro acc errs s
    simp only [resolveAliasesLoop]
    split_ifs
    · rw [ih acc (errs ++ [_]), ih [] ([] ++ [_])]; simp
    · rw [ih (acc ++ [_]) errs, ih ([] ++ [_]) []]; simp

/-- A lookup that answers like the function `f` and moves the world by `u` runs through the
whole list: the answers are split by success, the world has seen every token in order. -/
theorem resolveAliasesLoop_of_answers {σ : Type} (L : Lookup σ) (f : String → String × GoError)
    (u : String → σ → σ) (h : ∀ a s, L a s = (f a, u a s)) (tokens : List String) :
    ∀ (acc : List String) (errs : List GoError) (s : σ),
      resolveAliasesLoop L tokens acc errs s =
        ((acc ++ resolvedOf f tokens, errs ++ errorsOf f tokens),
          tokens.foldl (fun w a => u a w) s) := by
  induction tokens with
  | nil => intro acc errs s; simp [resolveAliasesLoop, resolvedOf, errorsOf]
  | cons t ts ih =>
    intro acc errs s
    simp only [resolveAliasesLoop, h]
    by_cases ht : (f t).2 = none
    · simp [ht, ih, resolvedOf, errorsOf]
    · simp [ht, ih, resolvedOf, errorsOf]

theorem foldl_record (k : String → String) (tokens : List String) :
    ∀ calls : List String,
      tokens.foldl (fun w a => w ++ [k a]) calls = calls ++ tokens.map k := by
  induction tokens with
  | nil => intro calls; simp
  | cons t ts ih => intro calls; simp [ih]

theorem resolveAliases_recorded (f : String → String × GoError) (tokens calls : List String) :
    resolveAliases (recorded f) tokens calls =
      ((resolvedOf f tokens, errorsOf f tokens), calls ++ tokens) := by
  have h := resolveAliasesLoop_of_answers (recorded f) f (fun a w => w ++ [a])
    (fun _ _ => rfl) tokens [] [] calls
  rw [foldl_record (fun a => a)] at h
  simpa [resolveAliases] using h

theorem resolveAliases_pure {σ : Type} (f : String → String × GoError) (tokens : List String)
    (s : σ) :
    resolveAliases (pureLookup f) tokens s = ((resolvedOf f tokens, errorsOf f tokens), s) := by
  have h := resolveAliasesLoop_of_answers (pureLookup f) f (fun _ w => w)
    (fun _ _ => rfl) tokens [] [] s
  have hw : ∀ w : σ, tokens.foldl (fun w _ => w) w = w := by
    intro w; induction tokens with
    | nil => rfl
    | cons t ts ih => simp
  rw [hw] at h
  simpa [resolveAliases] using h

theorem length_resolvedOf_add_errorsOf (f : String → String × GoError) (tokens : List String) :
    (resolvedOf f tokens).length + (errorsOf f tokens).length = tokens.length := by
  induction tokens with
  | nil => rfl
  | cons t ts ih =>
    by_cases h : (f t).2 = none
    · simp [resolvedOf, errorsOf, h] at ih ⊢; omega
    · simp [resolvedOf, errorsOf, h] at ih ⊢; omega

theorem resolveAliasAnswer_eq (g : String → String × GoError) (a : String) :
    resolveAliasAnswer g a =
      if unmapped g a = true then ("", some ("Failed to resolve alias team.alias." ++ a))
      else ((g ("team.alias." ++ a)).1, none) := by
  simp only [resolveAliasAnswer, resolveAlias, pureLookup, unmapped, decide_eq_true_eq]
  split_ifs <;> rfl

theorem resolveAlias_pureLookup {σ : Type} (g : String → String × GoError) (a : String)
    (s : σ) : resolveAlias (pureLookup g) a s = (resolveAliasAnswer g a, s) := by
  simp only [resolveAliasAnswer, resolveAlias, pureLookup]
  split_ifs <;> rfl

theorem resolveAlias_recorded (g : String → String × GoError) (a : String)
    (calls : List String) :
    resolveAlias (recorded g) a calls =
      (resolveAliasAnswer g a, calls ++ ["team.alias." ++ a]) := by
  simp only [resolveAliasAnswer, resolveAlias, pureLookup, recorded]
  split_ifs <;> rfl

theorem resolvedOf_resolveAliasAnswer (g : String → String × GoError) (tokens : List String) :
    resolvedOf (resolveAliasAnswer g) tokens =
      (tokens.filter (fun t => !unmapped g t)).map (fun t => (g ("team.alias." ++ t)).1) := by
  induction tokens with
  | nil => rfl
  | cons t ts ih =>
    simp only [resolvedOf] at ih
    by_cases h : unmapped g t = true
    · simp [resolvedOf, resolveAliasAnswer_eq, h, List.filter_cons] at ih ⊢
      simpa using ih
    · simp [resolvedOf, resolveAliasAnswer_eq, h, List.filter_cons] at ih ⊢
      simpa using ih

theorem errorsOf_resolveAliasAnswer (g : String → String × GoError) (tokens : List String) :
    errorsOf (resolveAliasAnswer g) tokens =
      (tokens.filter (fun t => unmapped g t)).map
        (fun t => some ("Failed to resolve alias team.alias." ++ t)) := by
  induction tokens with
  | nil => rfl
  | cons t ts ih =>
    simp only [errorsOf] at ih
    by_cases h : unmapped g t = true
    · simp [errorsOf, resolveAliasAnswer_eq, h, List.filter_cons] at ih ⊢
      simpa using ih
    · simp [errorsOf, resolveAliasAnswer_eq, h, List.filter_cons] at ih ⊢
      simpa using ih

/-! ## Alias resolution: the claims -/

/-- C1: for every lookup function and every token list, `resolveAliases` calls the lookup for
every token, in order, whatever the earlier outcomes (the recorded calls are exactly the
tokens); `resolved` is exactly the results of the tokens whose lookup succeeded and `errors`
exactly the errors of the tokens whose lookup failed, both in token order; the two lengths add
up to the number of tokens, and for the empty list both are empty. -/
theorem resolveAliases_attempts_every_token (f : String → String × GoError)
    (tokens calls : List String) :
    resolveAliases (recorded f) tokens calls =
        (((tokens.filter (fun t => decide ((f t).2 = none))).map (fun t => (f t).1),
          (tokens.filter (fun t => decide ((f t).2 ≠ none))).map (fun t => (f t).2)),
          calls ++ tokens)
      ∧ (resolveAliases (recorded f) tokens calls).1.1.length +
          (resolveAliases (recorded f) tokens calls).1.2.length = tokens.length
      ∧ (∀ e ∈ (resolveAliases (recorded f) tokens calls).1.2, e ≠ none)
      ∧ resolveAliases (recorded f) [] calls = (([], []), calls) := by
  refine ⟨resolveAliases_recorded f tokens calls, ?_, ?_, ?_⟩
  · rw [resolveAliases_recorded]
    exact length_resolvedOf_add_errorsOf f tokens
  · rw [resolveAliases_recorded]
    intro e he
    simp only [errorsOf, List.mem_map, List.mem_filter, decide_eq_true_eq] at he
    obtain ⟨t, ⟨_, ht⟩, rfl⟩ := he
    exact ht
  · rw [resolveAliases_recorded]; simp [resolvedOf, errorsOf]

/-- C3: `resolveAlias(gitconfigGet)(alias)` calls the getter once, with the key
`"team.alias." ++ alias` (the world afterwards is the one that call leaves, and a recording
getter has recorded exactly that key); it fails exactly when the getter returns an error or
the empty string; on success it returns the getter's value and `nil`, on failure the empty
string. -/
theorem resolveAlias_queries_key_fails_iff_unmapped {σ : Type} (gitconfigGet : Lookup σ)
    (aliasName : String) (s : σ) :
    (resolveAlias gitconfigGet aliasName s).2 = (gitconfigGet ("team.alias." ++ aliasName) s).2
      ∧ (∀ (g : String → String × GoError) (calls : List String),
          (resolveAlias (recorded g) aliasName calls).2 = calls ++ ["team.alias." ++ aliasName])
      ∧ ((resolveAlias gitconfigGet aliasName s).1.2 ≠ none ↔
          ((gitconfigGet ("team.alias." ++ aliasName) s).1.2 ≠ none ∨
            (gitconfigGet ("team.alias." ++ aliasName) s).1.1 = ""))
      ∧ ((resolveAlias gitconfigGet aliasName s).1.2 = none →
          (resolveAlias gitconfigGet aliasName s).1 =
            ((gitconfigGet ("team.alias." ++ aliasName) s).1.1, none))
      ∧ ((resolveAlias gitconfigGet aliasName s).1.2 ≠ none →
          (resolveAlias gitconfigGet aliasName s).1.1 = "") := by
  refine ⟨?_, ?_, ?_, ?_, ?_⟩
  · simp only [resolveAlias]; split_ifs <;> rfl
  · intro g calls; rw [resolveAlias_recorded]
  · simp only [resolveAlias]; split_ifs with h <;> simp [h]
  · simp only [resolveAlias]; split_ifs with h
    · simp
    · intro _; rfl
  · simp only [resolveAlias]; split_ifs with h <;> simp

/-- C3 at a concrete configuration: the alias `mr` is mapped and resolves to the stored value
with a `nil` error; the alias `void` is stored with an empty value, so its resolution fails and
returns the empty string. -/
theorem resolveAlias_queries_key_fails_iff_unmapped_witness :
    (resolveAlias (recorded sampleGet) "mr" []).1.2 = none
      ∧ (resolveAlias (recorded sampleGet) "mr" []).1 =
          ((recorded sampleGet ("team.alias." ++ "mr") []).1.1, none)
      ∧ (resolveAlias (recorded sampleGet) "void" []).1.2 ≠ none
      ∧ (resolveAlias (recorded sampleGet) "void" []).1.1 = "" :=
  ⟨by decide,
    (resolveAlias_queries_key_fails_iff_unmapped (recorded sampleGet) "mr" []).2.2.2.1
      (by decide),
    by decide,
    (resolveAlias_queries_key_fails_iff_unmapped (recorded sampleGet) "void" []).2.2.2.2
      (by decide)⟩

/-- C10: a run over `xs ++ ys` is the run over `xs` followed by the run over `ys` in the world
the first run leaves, with the resolved sequences and the error sequences concatenated; for a
lookup function without effects the two runs are independent, so the result is the
component-wise concatenation of the results for `xs` and for `ys`; a token given twice is
looked up twice and its result appears twice. -/
theorem resolveAliases_append {σ : Type} (L : Lookup σ) (f : String → String × GoError)
    (xs ys : List String) (s : σ) (t : String) (calls : List String) :
    resolveAliases L (xs ++ ys) s =
        (((resolveAliases L xs s).1.1 ++
            (resolveAliases L ys (resolveAliases L xs s).2).1.1,
          (resolveAliases L xs s).1.2 ++
            (resolveAliases L ys (resolveAliases L xs s).2).1.2),
          (resolveAliases L ys (resolveAliases L xs s).2).2)
      ∧ resolveAliases (pureLookup f) (xs ++ ys) s =
        (((resolveAliases (pureLookup f) xs s).1.1 ++ (resolveAliases (pureLookup f) ys s).1.1,
          (resolveAliases (pureLookup f) xs s).1.2 ++ (resolveAliases (pureLookup f) ys s).1.2),
          s)
      ∧ resolveAliases (recorded f) [t, t] calls =
        (if (f t).2 = none then (([(f t).1, (f t).1], []), calls ++ [t, t])
          else (([], [(f t).2, (f t).2]), calls ++ [t, t])) := by
  refine ⟨?_, ?_, ?_⟩
  · simp only [resolveAliases]
    rw [resolveAliasesLoop_append, resolveAliasesLoop_acc L ys]
  · simp only [resolveAliases_pure, resolvedOf, errorsOf, List.filter_append, List.map_append]
  · rw [resolveAliases_recorded]
    by_cases h : (f t).2 = none <;> simp [h, resolvedOf, errorsOf]

/-- C4: over a getter, the errors of `resolveAliases(resolveAlias(gitconfigGet))` are, in token
order, one error per token without mapping, with the message
`"Failed to resolve alias team.alias."` followed by the token; dropping the 35 characters of
that prefix from each message gives back the failing tokens, and two tokens whose resolution
fails with the same error are the same token. -/
theorem resolveAliases_errors_identify_tokens {σ : Type} (gitconfigGet : String → String × GoError)
    (tokens : List String) (s : σ) :
    (resolveAliases (resolveAlias (pureLookup gitconfigGet)) tokens s).1.2 =
        (tokens.filter (fun t => unmapped gitconfigGet t)).map
          (fun t => some ("Failed to resolve alias team.alias." ++ t))
      ∧ ((resolveAliases (resolveAlias (pureLookup gitconfigGet)) tokens s).1.2.map
          (fun e => (e.getD "").drop 35)) = tokens.filter (fun t => unmapped gitconfigGet t)
      ∧ (∀ t₁ t₂ : String,
          (resolveAlias (pureLookup gitconfigGet) t₁ s).1.2 ≠ none →
          (resolveAlias (pureLookup gitconfigGet) t₁ s).1.2 =
            (resolveAlias (pureLookup gitconfigGet) t₂ s).1.2 → t₁ = t₂) := by
  have hL : resolveAlias (pureLookup gitconfigGet) =
      (pureLookup (resolveAliasAnswer gitconfigGet) : Lookup σ) := by
    funext a w; rw [resolveAlias_pureLookup]; rfl
  have hdrop : ∀ t : String, ("Failed to resolve alias team.alias." ++ t).drop 35 = t := by
    intro t
    rw [String.drop_eq]
    apply String.ext
    simp only [String.data_append]
    rfl
  refine ⟨?_, ?_, ?_⟩
  · rw [hL, resolveAliases_pure, errorsOf_resolveAliasAnswer]
  · rw [hL, resolveAliases_pure, errorsOf_resolveAliasAnswer, List.map_map]
    conv_rhs => rw [← List.map_id (List.filter _ tokens)]
    apply List.map_congr_left
    intro t _
    simp [hdrop]
  · intro t₁ t₂ h₁ h₂
    rw [resolveAlias_pureLookup] at h₁ h₂
    rw [resolveAlias_pureLookup] at h₂
    simp only [resolveAliasAnswer_eq] at h₁ h₂
    by_cases u₁ : unmapped gitconfigGet t₁ = true
    · by_cases u₂ : unmapped gitconfigGet t₂ = true
      · simp only [u₁, u₂, if_true, Option.some.injEq] at h₂
        have := congrArg (fun m : String => m.drop 35) h₂
        simpa [hdrop] using this
      · simp [u₁, u₂] at h₂
    · simp [u₁] at h₁

/-- C4 at a concrete configuration: of the tokens `mr`, `jd`, `void` the last two have no
mapping; `jd` fails, and a token failing with the error of `jd` is `jd`. -/
theorem resolveAliases_errors_identify_tokens_witness :
    (resolveAliases (resolveAlias (pureLookup sampleGet)) ["mr", "jd", "void"] ()).1.2 =
        (["mr", "jd", "void"].filter (fun t => unmapped sampleGet t)).map
          (fun t => some ("Failed to resolve alias team.alias." ++ t))
      ∧ ["mr", "jd", "void"].filter (fun t => unmapped sampleGet t) = ["jd", "void"]
      ∧ (resolveAlias (pureLookup sampleGet) "jd" ()).1.2 ≠ none
      ∧ "jd" = "jd" :=
  ⟨(resolveAliases_errors_identify_tokens sampleGet ["mr", "jd", "void"] ()).1,
    by decide, by decide,
    (resolveAliases_errors_identify_tokens sampleGet ["mr", "jd", "void"] ()).2.2 "jd" "jd"
      (by decide) rfl⟩

/-- C9: over a getter, every coauthor in the resolved sequence of
`resolveAliases(resolveAlias(gitconfigGet))` is a non-empty string and is the value the getter
returned, without error, for the key `"team.alias." ++ t` of some token `t` of the input (the
resolved sequence is the stored values of the mapped tokens, in order); a token whose stored
value is empty is not resolved: alone it gives no coauthor and one error, and in any list it
contributes its resolution error. -/
theorem resolveAliases_resolved_nonempty_and_stored {σ : Type}
    (gitconfigGet : String → String × GoError) (tokens : List String) (s : σ) :
    (∀ c ∈ (resolveAliases (resolveAlias (pureLookup gitconfigGet)) tokens s).1.1,
        c ≠ "" ∧ ∃ t ∈ tokens, gitconfigGet ("team.alias." ++ t) = (c, none))
      ∧ (resolveAliases (resolveAlias (pureLookup gitconfigGet)) tokens s).1.1 =
          (tokens.filter (fun t => !unmapped gitconfigGet t)).map
            (fun t => (gitconfigGet ("team.alias." ++ t)).1)
      ∧ (∀ t ∈ tokens, (gitconfigGet ("team.alias." ++ t)).1 = "" →
          some ("Failed to resolve alias team.alias." ++ t) ∈
            (resolveAliases (resolveAlias (pureLookup gitconfigGet)) tokens s).1.2)
      ∧ (∀ t : String, (gitconfigGet ("team.alias." ++ t)).1 = "" →
          resolveAliases (resolveAlias (pureLookup gitconfigGet)) [t] s =
            (([], [some ("Failed to resolve alias team.alias." ++ t)]), s)) := by
  have hL : resolveAlias (pureLookup gitconfigGet) =
      (pureLookup (resolveAliasAnswer gitconfigGet) : Lookup σ) := by
    funext a w; rw [resolveAlias_pureLookup]; rfl
  rw [hL]
  simp only [resolveAliases_pure, resolvedOf_resolveAliasAnswer, errorsOf_resolveAliasAnswer]
  refine ⟨?_, trivial, ?_, ?_⟩
  · intro c hc
    simp only [List.mem_map, List.mem_filter, Bool.not_eq_true', unmapped,
      decide_eq_false_iff_not, not_or, not_not] at hc
    obtain ⟨t, ⟨ht, herr, hval⟩, rfl⟩ := hc
    exact ⟨hval, t, ht, Prod.ext rfl herr⟩
  · intro t ht hempty
    simp only [List.mem_map, List.mem_filter]
    exact ⟨t, ⟨ht, by simp [unmapped, hempty]⟩, rfl⟩
  · intro t hempty
    simp [unmapped, hempty]

/-- C9 at a concrete configuration: of the tokens `mr`, `void`, `jd` only `mr` is resolved, to
its stored value; `void`, stored with an empty value, is among the errors. -/
theorem resolveAliases_resolved_nonempty_and_stored_witness :
    (resolveAliases (resolveAlias (pureLookup sampleGet)) ["mr", "void", "jd"] ()).1.1 =
        ["Mr. Noujz <noujz@mr.se>"]
      ∧ "void" ∈ ["mr", "void", "jd"]
      ∧ (sampleGet ("team.alias." ++ "void")).1 = ""
      ∧ some ("Failed to resolve alias team.alias." ++ "void") ∈
          (resolveAliases (resolveAlias (pureLookup sampleGet)) ["mr", "void", "jd"] ()).1.2 :=
  ⟨by decide, by decide, by decide,
    (resolveAliases_resolved_nonempty_and_stored sampleGet ["mr", "void", "jd"] ()).2.2.1
      "void" (by decide) (by decide)⟩

/-- C2, the claim refuted: with a configuration that has no alias at all, the token
`Jane Doe <jane@doe.com>`, which has the shape `Name <email>`, is looked up under the key
`team.alias.Jane Doe <jane@doe.com>`, is absent from the resolved sequence and yields a
resolution error. -/
theorem resolveAliases_looks_up_literal_coauthor :
    resolveAliases (resolveAlias (recorded emptyGet)) ["Jane Doe <jane@doe.com>"] [] =
      (([], [some "Failed to resolve alias team.alias.Jane Doe <jane@doe.com>"]),
        ["team.alias.Jane Doe <jane@doe.com>"]) := by
  decide

/-- C2, as amended: `resolveAliases(resolveAlias(gitconfigGet))` makes no test of the shape of
a token. Every token, of the shape `Name <email>` or not, is looked up under the key
`"team.alias." ++ token` (the recorded keys are those of all tokens, in order); a token alone
gives the stored value as its coauthor when the key is mapped, and no coauthor and one
resolution error when it is not. -/
theorem resolveAliases_looks_up_every_token (gitconfigGet : String → String × GoError)
    (tokens calls : List String) (token : String) :
    (resolveAliases (resolveAlias (recorded gitconfigGet)) tokens calls).2 =
        calls ++ tokens.map (fun t => "team.alias." ++ t)
      ∧ resolveAliases (resolveAlias (recorded gitconfigGet)) [token] calls =
        (if unmapped gitconfigGet token = true then
            (([], [some ("Failed to resolve alias team.alias." ++ token)]),
              calls ++ ["team.alias." ++ token])
          else
            (([(gitconfigGet ("team.alias." ++ token)).1], []),
              calls ++ ["team.alias." ++ token])) := by
  have hloop : ∀ (ts : List String),
      resolveAliases (resolveAlias (recorded gitconfigGet)) ts calls =
        ((resolvedOf (resolveAliasAnswer gitconfigGet) ts,
          errorsOf (resolveAliasAnswer gitconfigGet) ts),
          calls ++ ts.map (fun t => "team.alias." ++ t)) := by
    intro ts
    have h := resolveAliasesLoop_of_answers (resolveAlias (recorded gitconfigGet))
      (resolveAliasAnswer gitconfigGet) (fun a w => w ++ ["team.alias." ++ a])
      (fun a w => resolveAlias_recorded gitconfigGet a w) ts [] [] calls
    rw [foldl_record (fun a => "team.alias." ++ a)] at h
    simpa [resolveAliases] using h
  refine ⟨by rw [hloop], ?_⟩
  rw [hloop, resolvedOf_resolveAliasAnswer, errorsOf_resolveAliasAnswer]
  by_cases h : unmapped gitconfigGet token = true <;> simp [h]

/-! ## Error folding and exit -/

theorem foldErrorsLoop_some (msgs : List String) :
    ∀ buffer : String,
      foldErrorsLoop (msgs.map some) buffer =
        some (msgs.foldl (fun b m => (b ++ m) ++ "; ") buffer) := by
  induction msgs with
  | nil => intro buffer; rfl
  | cons m ms ih => intro buffer; simp only [List.map_cons, foldErrorsLoop, ih, List.foldl_cons]

theorem intercalate_go_eq_foldl (sep : String) (ms : List String) :
    ∀ acc : String,
      String.intercalate.go acc sep ms = ms.foldl (fun b m => (b ++ sep) ++ m) acc := by
  induction ms with
  | nil => intro acc; rfl
  | cons m ms ih => intro acc; simp only [String.intercalate.go, ih, List.foldl_cons]

theorem foldl_separator_after (sep : String) (ms : List String) :
    ∀ acc : String,
      ms.foldl (fun b m => (b ++ m) ++ sep) (acc ++ sep) =
        ms.foldl (fun b m => (b ++ sep) ++ m) acc ++ sep := by
  induction ms with
  | nil => intro acc; rfl
  | cons m ms ih => intro acc; simp only [List.foldl_cons, ih]

theorem trimRight_append_separator (s : String) :
    trimRight (s ++ "; ") "; " = trimRight s "; " := by
  have h : (s ++ "; ").data = (s.data ++ [';']) ++ [' '] := by
    simp [String.data_append]
  simp only [trimRight, h]
  rw [List.rdropWhile_concat_pos _ _ _ (by decide), List.rdropWhile_concat_pos _ _ _ (by decide)]

/-- In general `foldErrors` of non-nil errors returns the messages joined by `"; "` with the
trailing run of `;` and blanks of that join removed. -/
theorem foldErrors_eq_trimRight_join (m : String) (ms : List String) :
    foldErrors ((m :: ms).map some) = some (trimRight ("; ".intercalate (m :: ms)) "; ") := by
  simp only [foldErrors, foldErrorsLoop_some, Option.map_some', List.foldl_cons,
    String.intercalate, intercalate_go_eq_foldl]
  have h0 : ("" : String) ++ m = m := by apply String.ext; simp [String.data_append]
  rw [h0, foldl_separator_after, trimRight_append_separator]

/-- Where the join of the messages ends in a character other than `;` and the blank,
`foldErrors` returns exactly the join. -/
theorem foldErrors_eq_join_of_clean_end (m : String) (ms : List String) (c : Char)
    (hlast : ("; ".intercalate (m :: ms)).data.getLast? = some c) (h1 : c ≠ ';')
    (h2 : c ≠ ' ') :
    foldErrors ((m :: ms).map some) = some ("; ".intercalate (m :: ms)) := by
  rw [foldErrors_eq_trimRight_join]
  congr 1
  apply String.ext
  simp only [trimRight]
  obtain ⟨l, hl⟩ : ∃ l, ("; ".intercalate (m :: ms)).data = l ++ [c] := by
    rcases List.eq_nil_or_concat ("; ".intercalate (m :: ms)).data with h | ⟨l, x, h⟩
    · rw [h] at hlast; simp at hlast
    · rw [h] at hlast
      simp at hlast
      exact ⟨l, by rw [h, hlast]; simp⟩
  rw [hl, List.rdropWhile_concat_neg]
  simp [h1, h2]

/-- C5, the code at a failing input: for the two errors that `enable mr "jd;"` gives over a
configuration without aliases, `foldErrors` returns the messages joined by `"; "` without the
`;` that ends the second message, and `exitIfErr` writes that shortened text; joining the two
messages by `"; "` keeps the `;`. -/
theorem foldErrors_drops_end_of_last_message :
    (resolveAliases (resolveAlias (pureLookup emptyGet)) ["mr", "jd;"] ()).1.2 =
        [some "Failed to resolve alias team.alias.mr",
          some "Failed to resolve alias team.alias.jd;"]
      ∧ foldErrors [some "Failed to resolve alias team.alias.mr",
          some "Failed to resolve alias team.alias.jd;"] =
        some "Failed to resolve alias team.alias.mr; Failed to resolve alias team.alias.jd"
      ∧ "; ".intercalate ["Failed to resolve alias team.alias.mr",
          "Failed to resolve alias team.alias.jd;"] =
        "Failed to resolve alias team.alias.mr; Failed to resolve alias team.alias.jd;"
      ∧ exitIfErr [some "Failed to resolve alias team.alias.mr",
          some "Failed to resolve alias team.alias.jd;"] (Process.mk "" Status.running) =
        Process.mk
          "error: Failed to resolve alias team.alias.mr; Failed to resolve alias team.alias.jd\n"
          (Status.exited (-1)) := by
  refine ⟨by decide, by decide, by decide, by decide⟩

/-- C6, the claim refuted: the list `[nil, errors.New("boom")]` contains a non-nil error, and
`exitIfErr` returns with the process still running and nothing written to standard error. -/
theorem exitIfErr_skips_error_behind_nil :
    (∃ e ∈ [none, some "boom"], e ≠ none)
      ∧ exitIfErr [none, some "boom"] (Process.mk "" Status.running) =
        Process.mk "" Status.running := by
  refine ⟨⟨some "boom", by decide, by decide⟩, by decide⟩

/-- C6, as amended: `exitIfErr` ends the process, with an exit status that is not zero, exactly
when the list is not empty and its first element is a non-nil error. When the list is empty or
its first element is `nil` it returns, the process still running and standard error untouched.
When every element of a non-empty list is a non-nil error it writes `error: `, the message of
`foldErrors` and a newline to standard error and exits with status `-1`. When the first
element is an error and `foldErrors` panics on a later `nil`, the process ends by that panic
and `exitIfErr` has written nothing. -/
theorem exitIfErr_exits_iff_first_is_error (validationErrs : List GoError) (out : String) :
    ((∃ code : Int,
          (exitIfErr validationErrs (Process.mk out Status.running)).status.exitCode = some code
            ∧ code ≠ 0) ↔
        ∃ (m : String) (rest : List GoError), validationErrs = some m :: rest)
      ∧ ((validationErrs = [] ∨ validationErrs.head? = some none) →
          exitIfErr validationErrs (Process.mk out Status.running) =
            Process.mk out Status.running)
      ∧ ((validationErrs ≠ [] ∧ ∀ e ∈ validationErrs, e ≠ none) →
          ∃ msg : String, foldErrors validationErrs = some msg ∧
            exitIfErr validationErrs (Process.mk out Status.running) =
              Process.mk (out ++ (("error: " ++ msg) ++ "\n")) (Status.exited (-1)))
      ∧ ((validationErrs.head? ≠ none ∧ validationErrs.head? ≠ some none ∧
            foldErrors validationErrs = none) →
          exitIfErr validationErrs (Process.mk out Status.running) =
            Process.mk out Status.panicked) := by
  refine ⟨?_, ?_, ?_, ?_⟩
  · cases validationErrs with
    | nil => simp [exitIfErr, Status.exitCode]
    | cons e rest =>
      cases e with
      | none => simp [exitIfErr, Status.exitCode]
      | some m =>
        simp only [exitIfErr, List.length_cons, List.head?_cons]
        cases foldErrors (some m :: rest) <;> simp [Status.exitCode]
  · rintro (h | h)
    · subst h; simp [exitIfErr]
    · simp [exitIfErr, h]
  · rintro ⟨hne, hall⟩
    obtain ⟨msgs, rfl⟩ : ∃ msgs : List String, validationErrs = msgs.map some := by
      clear hne
      induction validationErrs with
      | nil => exact ⟨[], rfl⟩
      | cons e rest ih =>
        obtain ⟨ms, hms⟩ := ih (fun x hx => hall x (List.mem_cons_of_mem _ hx))
        cases e with
        | none => exact absurd rfl (hall none (List.mem_cons_self _ _))
        | some m => exact ⟨m :: ms, by simp [hms]⟩
    cases msgs with
    | nil => exact absurd rfl hne
    | cons m ms =>
      have hf := foldErrors_eq_trimRight_join m ms
      refine ⟨_, hf, ?_⟩
      simp only [exitIfErr, hf]
      simp
  · rintro ⟨h0, h1, hf⟩
    cases validationErrs with
    | nil => simp at h0
    | cons e rest =>
      cases e with
      | none => simp at h1
      | some m => simp [exitIfErr, hf]

/-- C6 as amended, at concrete lists: a single `nil` lets `exitIfErr` return with nothing
written; two errors make it write the folded line and exit with status `-1`; an error followed
by `nil` ends the process by a panic. -/
theorem exitIfErr_exits_iff_first_is_error_witness :
    exitIfErr [none] (Process.mk "" Status.running) = Process.mk "" Status.running
      ∧ (∃ msg : String, foldErrors [some "boom", some "bang"] = some msg ∧
          exitIfErr [some "boom", some "bang"] (Process.mk "" Status.running) =
            Process.mk ("" ++ (("error: " ++ msg) ++ "\n")) (Status.exited (-1)))
      ∧ exitIfErr [some "boom", some "bang"] (Process.mk "" Status.running) =
          Process.mk "error: boom; bang\n" (Status.exited (-1))
      ∧ exitIfErr [some "boom", none] (Process.mk "" Status.running) =
          Process.mk "" Status.panicked :=
  ⟨(exitIfErr_exits_iff_first_is_error [none] "").2.1 (by decide),
    (exitIfErr_exits_iff_first_is_error [some "boom", some "bang"] "").2.2.1 (by decide),
    by decide,
    (exitIfErr_exits_iff_first_is_error [some "boom", none] "").2.2.2 (by decide)⟩

/-! ## The add executor -/

/-- C7, the claim refuted: for the empty alias and the coauthor `Mr. Noujz <noujz@mr.se>` the
executor returns an error and the injected `AddGitAlias` has not been called, although the
`AddGitAlias` call for that alias and coauthor returns `nil`. -/
theorem addExecutor_fails_on_empty_alias :
    (recordingAdd.AddGitAlias "" "Mr. Noujz <noujz@mr.se>" []).1 = none
      ∧ (ExecutorFactory recordingAdd (AddCommand.mk "" "Mr. Noujz <noujz@mr.se>") []).1 ≠ none
      ∧ (ExecutorFactory recordingAdd (AddCommand.mk "" "Mr. Noujz <noujz@mr.se>") []).2 = [] := by
  refine ⟨by decide, by decide, by decide⟩

/-- C7, as amended: for every command whose alias and coauthor are both non-empty, every
injected `AddGitAlias` and every world, the add executor returns an error exactly when the
`AddGitAlias` call for the command's alias and coauthor returns one, and then it is that
error; when the call succeeds the executor returns `nil`; the world afterwards is the one the
call leaves. -/
theorem addExecutor_fails_iff_write_fails {σ : Type} (deps : AddEffect σ) (cmd : AddCommand)
    (s : σ) (hAlias : cmd.Alias ≠ "") (hCoauthor : cmd.Coauthor ≠ "") :
    ((ExecutorFactory deps cmd s).1 ≠ none ↔
        (deps.AddGitAlias cmd.Alias cmd.Coauthor s).1 ≠ none)
      ∧ ((deps.AddGitAlias cmd.Alias cmd.Coauthor s).1 = none →
          (ExecutorFactory deps cmd s).1 = none)
      ∧ (ExecutorFactory deps cmd s).1 = (deps.AddGitAlias cmd.Alias cmd.Coauthor s).1
      ∧ (ExecutorFactory deps cmd s).2 = (deps.AddGitAlias cmd.Alias cmd.Coauthor s).2 := by
  have h : ExecutorFactory deps cmd s = deps.AddGitAlias cmd.Alias cmd.Coauthor s := by
    simp only [ExecutorFactory, hAlias, hCoauthor, or_self, if_false]
    split <;> simp_all
  refine ⟨by rw [h], fun h0 => by rw [h]; exact h0, by rw [h], by rw [h]⟩

/-- C7 as amended, at the inputs of `src/add/executor_test.go`: alias `mr` and coauthor
`Mr. Noujz <noujz@mr.se>` are non-empty; with the write of `TestAddSucceeds` the executor
returns `nil` and the write has been called once with that pair; with the write of
`TestAddFailsBecauseUnderlyingGitAddFails` it returns an error. -/
theorem addExecutor_fails_iff_write_fails_witness :
    (AddCommand.mk "mr" "Mr. Noujz <noujz@mr.se>").Alias ≠ ""
      ∧ (AddCommand.mk "mr" "Mr. Noujz <noujz@mr.se>").Coauthor ≠ ""
      ∧ (ExecutorFactory recordingAdd (AddCommand.mk "mr" "Mr. Noujz <noujz@mr.se>") []).1 = none
      ∧ (ExecutorFactory recordingAdd (AddCommand.mk "mr" "Mr. Noujz <noujz@mr.se>") []).2 =
          [("mr", "Mr. Noujz <noujz@mr.se>")]
      ∧ (ExecutorFactory (AddEffect.mk (fun _ _ (w : Unit) => (some "git add failed", w)))
          (AddCommand.mk "mr" "Mr. Noujz <noujz@mr.se>") ()).1 ≠ none :=
  ⟨by decide, by decide,
    (addExecutor_fails_iff_write_fails recordingAdd
      (AddCommand.mk "mr" "Mr. Noujz <noujz@mr.se>") [] (by decide) (by decide)).2.1 (by decide),
    by decide,
    (addExecutor_fails_iff_write_fails
      (AddEffect.mk (fun _ _ (w : Unit) => (some "git add failed", w)))
      (AddCommand.mk "mr" "Mr. Noujz <noujz@mr.se>") () (by decide) (by decide)).1.2
      (by decide)⟩

/-! ## The event mapper -/

/-- C8, the claim refuted: with colour output on, the message for `AssignmentAborted` is
`Nothing changed.` between the escape sequences for yellow and for reset, not the bare text. -/
theorem MapEventToEffects_message_is_coloured :
    MapEventToEffects (ansiColor "32") (ansiColor "33") Event.AssignmentAborted =
        [Effect.NewPrintMessage "\x1b[33mNothing changed.\x1b[0m", Effect.NewExitOk]
      ∧ MapEventToEffects (ansiColor "32") (ansiColor "33") Event.AssignmentAborted ≠
        [Effect.NewPrintMessage "Nothing changed.", Effect.NewExitOk] := by
  refine ⟨by decide, by decide⟩

/-- C8, as amended: `AssignmentSucceeded{Alias, Coauthor}` yields the message
`Alias '<Alias>' -> '<Coauthor>' has been added.` as rendered by `color.GreenString`, then
exit ok; `AssignmentAborted` yields `Nothing changed.` as rendered by `color.YellowString`,
then exit ok; `AssignmentFailed{Reason}` yields print error `Reason`, then exit error; every
other event yields no effect. With colouring that leaves the text as it is the messages are
the bare texts. The list ends in an error exit exactly for `AssignmentFailed`, and a non-empty
list has exactly one exit effect, in last position. -/
theorem MapEventToEffects_spec (GreenString YellowString : String → String) (event : Event)
    (Alias Coauthor typeName : String) (Reason : GoError) :
    MapEventToEffects GreenString YellowString (Event.AssignmentSucceeded Alias Coauthor) =
        [Effect.NewPrintMessage
            (GreenString ("Alias '" ++ Alias ++ "' -> '" ++ Coauthor ++ "' has been added.")),
          Effect.NewExitOk]
      ∧ MapEventToEffects GreenString YellowString Event.AssignmentAborted =
        [Effect.NewPrintMessage (YellowString "Nothing changed."), Effect.NewExitOk]
      ∧ MapEventToEffects GreenString YellowString (Event.AssignmentFailed Reason) =
        [Effect.NewPrintErr Reason, Effect.NewExitErr]
      ∧ MapEventToEffects GreenString YellowString (Event.other typeName) = []
      ∧ MapEventToEffects id id (Event.AssignmentSucceeded Alias Coauthor) =
        [Effect.NewPrintMessage
            ("Alias '" ++ Alias ++ "' -> '" ++ Coauthor ++ "' has been added."),
          Effect.NewExitOk]
      ∧ MapEventToEffects id id Event.AssignmentAborted =
        [Effect.NewPrintMessage "Nothing changed.", Effect.NewExitOk]
      ∧ ((MapEventToEffects GreenString YellowString event).getLast? = some Effect.NewExitErr ↔
          ∃ reason, event = Event.AssignmentFailed reason)
      ∧ (MapEventToEffects GreenString YellowString event = [] ∨
          (((MapEventToEffects GreenString YellowString event).filter Effect.isExit).length = 1
            ∧ (MapEventToEffects GreenString YellowString event).getLast?.map Effect.isExit =
              some true)) := by
  refine ⟨rfl, rfl, rfl, rfl, rfl, rfl, ?_, ?_⟩
  · cases event <;> simp [MapEventToEffects]
  · cases event <;> simp [MapEventToEffects, Effect.isExit]

end GitTeam
